import Mathlib

/-!
Shallow embedding of the credential-obfuscation and proxy-parsing code of
esniper's `src/util.c`, together with proofs of the specified properties.

Conventions of the embedding:
* C byte buffers (`char *`) are `List Nat` with each element the byte's
  bit pattern (`% 256` where a cast occurs); a well-formed C string is a
  list `P ++ [0]` whose prefix `P` contains no zero byte.
* The module-level state used by `encryptPassword` / `decryptPassword` /
  `clearPassword` (`options.password`, `options.encrypted`, `passwordPad`,
  `passwordLen`, the lazy-seed flag) is gathered into one structure.
* `random()` is modelled as a fixed stream `rng : Nat -> Nat` read at a
  moving position `rngPos`; `(char)random()` is `rng pos % 256`.
* Machine-level reads past a buffer's end are undefined behaviour in the C;
  the embedding gives them a harmless default, and the invariants proved
  below show such reads never occur on reachable states.
-/

namespace Esniper

/-- Module-level state of the password code in `src/util.c`
(`options.password`, `options.encrypted`, `passwordPad`, `passwordLen`,
`needSeed`) plus the model of the `random()` stream. -/
structure CGState where
  password : Option (List Nat)
  encrypted : Bool
  passwordPad : Option (List Nat)
  passwordLen : Nat
  needSeed : Bool
  rng : Nat → Nat
  rngPos : Nat

/-- The byte produced by the k-th `random()` call made from state `s`:
`(char)random()` is the low byte of the stream value. -/
def randByte (s : CGState) (k : Nat) : Nat :=
  s.rng (s.rngPos + k) % 256

/-- Function `seedPasswordRandom` (util.c:445-452): seeds the generator lazily.
Seeding does not change the modelled stream, only the flag. -/
def seedPasswordRandom (s : CGState) : CGState :=
  { s with needSeed := false }

/-- C `strlen` on the modelled buffer: number of bytes before the first
zero byte (the whole list if no zero byte is present). -/
def strlen : List Nat → Nat
  | [] => 0
  | b :: bs => if b = 0 then 0 else strlen bs + 1

/-- The XOR loop `for (i = 0; i < len; ++i) buf[i] ^= pad[i];` of
util.c:485-486 and util.c:497-498: XOR the first `len` bytes of `buf`
with the corresponding bytes of `pad`. -/
def xorLoop : List Nat → List Nat → Nat → List Nat
  | buf, _, 0 => buf
  | [], _, _ + 1 => []
  | b :: bs, pad, n + 1 => (b ^^^ pad.headD 0) :: xorLoop bs pad.tail n

/-- Function `encryptPassword` (util.c:471-488): no-op if already encrypted or no
password; otherwise lazily generate a pad of length `strlen(password)+1`
from the random stream, XOR the buffer with the pad, set the flag. -/
def encryptPassword (s : CGState) : CGState :=
  if s.encrypted || s.password.isNone then s
  else
    let s0 := seedPasswordRandom s
    match s0.password with
    | none => s0
    | some pw =>
      match s0.passwordPad with
      | some pad =>
        { s0 with password := some (xorLoop pw pad s0.passwordLen)
                  encrypted := true }
      | none =>
        let len := strlen pw + 1
        let pad := (List.range len).map (randByte s0)
        { s0 with password := some (xorLoop pw pad len)
                  passwordPad := some pad
                  passwordLen := len
                  rngPos := s0.rngPos + len
                  encrypted := true }

/-- Function `decryptPassword` (util.c:490-500): no-op unless encrypted with both
buffer and pad present; otherwise XOR with the pad again, clear the flag. -/
def decryptPassword (s : CGState) : CGState :=
  if !s.encrypted || s.password.isNone || s.passwordPad.isNone then s
  else
    match s.password, s.passwordPad with
    | some pw, some pad =>
      { s with password := some (xorLoop pw pad s.passwordLen)
               encrypted := false }
    | _, _ => s

/-- The overwrite loop of `clearPassword` applied to one buffer: position
`i < len` is replaced by `f i`; bytes past `len` are untouched. -/
def overwriteLoop : List Nat → (Nat → Nat) → Nat → List Nat
  | buf, _, 0 => buf
  | [], _, _ + 1 => []
  | _ :: bs, f, n + 1 => f 0 :: overwriteLoop bs (fun i => f (i + 1)) n

/-- The first phase of `clearPassword` (util.c:459-463): seed, then for
each `i < passwordLen` draw two random bytes, writing the first over
`options.password[i]` and the second over `passwordPad[i]`. -/
def clearOverwrite (s : CGState) : CGState :=
  let s0 := seedPasswordRandom s
  { s0 with
    password := s0.password.map
      (fun pw => overwriteLoop pw (fun i => randByte s0 (2 * i)) s0.passwordLen)
    passwordPad := s0.passwordPad.map
      (fun pd => overwriteLoop pd (fun i => randByte s0 (2 * i + 1)) s0.passwordLen)
    rngPos := s0.rngPos + 2 * s0.passwordLen }

/-- Function `clearPassword` (util.c:454-469): overwrite both buffers with random
bytes, then free both (drop them from the state) and zero the length. -/
def clearPassword (s : CGState) : CGState :=
  let s1 := clearOverwrite s
  { s1 with password := none, passwordPad := none, passwordLen := 0 }

/- Basic lemmas about the loops. -/

theorem xorLoop_nil (pad : List Nat) (n : Nat) : xorLoop [] pad n = [] := by
  cases n <;> rfl

theorem xorLoop_zero (buf pad : List Nat) : xorLoop buf pad 0 = buf := by
  cases buf <;> rfl

theorem xorLoop_cons (b : Nat) (bs pad : List Nat) (n : Nat) :
    xorLoop (b :: bs) pad (n + 1) =
      (b ^^^ pad.headD 0) :: xorLoop bs pad.tail n := rfl

theorem xorLoop_length (buf pad : List Nat) (n : Nat) :
    (xorLoop buf pad n).length = buf.length := by
  induction buf generalizing pad n with
  | nil => rw [xorLoop_nil]
  | cons b bs ih =>
    cases n with
    | zero => rw [xorLoop_zero]
    | succ n => rw [xorLoop_cons, List.length_cons, List.length_cons, ih]

theorem xorLoop_xorLoop (buf pad : List Nat) (n : Nat) :
    xorLoop (xorLoop buf pad n) pad n = buf := by
  induction buf generalizing pad n with
  | nil => rw [xorLoop_nil, xorLoop_nil]
  | cons b bs ih =>
    cases n with
    | zero => rw [xorLoop_zero, xorLoop_zero]
    | succ n =>
      rw [xorLoop_cons, xorLoop_cons, ih, Nat.xor_assoc, Nat.xor_self,
        Nat.xor_zero]

theorem strlen_append_zero (P : List Nat) (hP : (0 : Nat) ∉ P) :
    strlen (P ++ [0]) = P.length := by
  induction P with
  | nil => rfl
  | cons b bs ih =>
    have hb : b ≠ 0 := fun h => hP (h ▸ List.mem_cons_self b bs)
    have hbs : (0 : Nat) ∉ bs := fun h => hP (List.mem_cons_of_mem b h)
    show (if b = 0 then 0 else strlen (bs ++ [0]) + 1) = bs.length + 1
    rw [if_neg hb, ih hbs]

/-- First obfuscation of a fresh plaintext secret: the state produced by
`encryptPassword` when no pad exists yet — the pad is generated from the
random stream with length `strlen + 1` and XORed into the buffer. -/
theorem encryptPassword_fresh (s : CGState) (P : List Nat)
    (hpw : s.password = some P) (henc : s.encrypted = false)
    (hpad : s.passwordPad = none) :
    encryptPassword s =
      { s with
        password := some (xorLoop P
          ((List.range (strlen P + 1)).map (randByte s)) (strlen P + 1))
        passwordPad := some ((List.range (strlen P + 1)).map (randByte s))
        passwordLen := strlen P + 1
        needSeed := false
        rngPos := s.rngPos + (strlen P + 1)
        encrypted := true } := by
  rw [encryptPassword]
  simp only [henc, hpw, hpad, seedPasswordRandom, Option.isNone_some,
    Bool.false_or, if_false]
  rfl

/-- Claim C1: for every plaintext password P (of any length, including 0),
starting from a state holding the C string `P ++ [0]` in plaintext form with
no pad yet, `encryptPassword` followed by `decryptPassword` restores the
buffer bit-for-bit and leaves the secret in plaintext state: the pad is
XORed in twice and cancels. -/
theorem encrypt_decrypt_roundtrip (s : CGState) (P : List Nat)
    (hpw : s.password = some (P ++ [0])) (hP : (0 : Nat) ∉ P)
    (henc : s.encrypted = false) (hpad : s.passwordPad = none) :
    (decryptPassword (encryptPassword s)).password = some (P ++ [0]) ∧
    (decryptPassword (encryptPassword s)).encrypted = false ∧
    (decryptPassword (encryptPassword s)).passwordLen = P.length + 1 := by
  have hP0 : strlen (P ++ [0]) = P.length := strlen_append_zero P hP
  rw [encryptPassword_fresh s (P ++ [0]) hpw henc hpad, decryptPassword]
  simp only [Option.isNone_some, Bool.not_true, Bool.false_or, if_false]
  exact ⟨congrArg some (xorLoop_xorLoop _ _ _), rfl, by rw [hP0]; exact rfl⟩

/-- A concrete state used to instantiate the credential-guard theorems. -/
def demoPlain : CGState :=
  { password := some ([104, 105] ++ [0])
    encrypted := false
    passwordPad := none
    passwordLen := 0
    needSeed := true
    rng := fun k => 7 * k + 3
    rngPos := 0 }

/-- Witness for C1: the round trip on the concrete two-byte password
`[104, 105]`. -/
theorem encrypt_decrypt_roundtrip_witness :
    (decryptPassword (encryptPassword demoPlain)).password =
      some ([104, 105] ++ [0]) ∧
    (decryptPassword (encryptPassword demoPlain)).encrypted = false ∧
    (decryptPassword (encryptPassword demoPlain)).passwordLen = 2 + 1 :=
  encrypt_decrypt_roundtrip demoPlain [104, 105] rfl (by decide) rfl rfl

/-! ### Proxy parser (`parseProxy`, util.c:377-435)

The input C string is `Option (List Char)` (`none` is the NULL pointer, the
list holds the characters before the terminating NUL).  The stored
`proxy_t` is a host (`NULL` or an owned string) and an `int` port. -/

/-- The stored `proxy_t` structure: `host` and `port`. -/
structure Proxy where
  host : Option (List Char)
  port : Int
  deriving DecidableEq, Repr

/-- Model of `!strncasecmp(cp, "http://", 7)` (util.c:390): the first seven
characters match `http://` case-insensitively.  A string shorter than
seven characters fails the comparison at its terminating NUL. -/
def matchHttp : List Char → Bool
  | c0 :: c1 :: c2 :: c3 :: c4 :: c5 :: c6 :: _ =>
    c0.toLower == 'h' && c1.toLower == 't' && c2.toLower == 't' &&
    c3.toLower == 'p' && c4.toLower == ':' && c5.toLower == '/' &&
    c6.toLower == '/'
  | _ => false

/-- C `strcspn`: length of the longest prefix of the string containing no
character of `set`. -/
def strcspn : List Char → List Char → Nat
  | [], _ => 0
  | c :: cs, set => if c ∈ set then 0 else strcspn cs set + 1

/-- The digit scan performed by `strtol(cp, &end, 10)` when `cp` starts at
a digit: the maximal digit prefix and the remainder (`end`). -/
def digitSpan : List Char → List Char × List Char
  | [] => ([], [])
  | c :: cs =>
    if c.isDigit then ((c :: (digitSpan cs).1, (digitSpan cs).2))
    else ([], c :: cs)

/-- Decimal value of a digit string, as accumulated by `strtol`. -/
def digitsVal (ds : List Char) : Nat :=
  ds.foldl (fun a c => a * 10 + (c.toNat - 48)) 0

/-- Constant `LONG_MAX` on the LP64 platforms esniper targets; `strtol` sets
`errno = ERANGE` exactly when the accumulated value exceeds it (digits
are non-negative, so `LONG_MIN` is unreachable). -/
def LONG_MAX : Nat := 2 ^ 63 - 1

/-- The `(int)` conversion applied to the `long` result of `strtol`
(util.c:406), modelled as the usual two's-complement truncation to 32
bits. -/
def castInt (v : Nat) : Int :=
  if v % 2 ^ 32 < 2 ^ 31 then ((v % 2 ^ 32 : Nat) : Int)
  else ((v % 2 ^ 32 : Nat) : Int) - 2 ^ 32

/-- The trailing-garbage switch of `parseProxy` (util.c:411-420, also
422-427): after host and optional port, the rest of the string must be
empty or a single `/`; on success the host and port are stored
(util.c:431-433), on failure the stored proxy is untouched. -/
def tailCheck (rest : List Char) (host : List Char) (port : Int)
    (proxy : Proxy) : Nat × Proxy :=
  match rest with
  | '/' :: t => if t = [] then (0, ⟨some host, port⟩) else (1, proxy)
  | [] => (0, ⟨some host, port⟩)
  | _ => (1, proxy)

/-- Function `parseProxy` (util.c:377-435).  Returns the C return value (0 parsed
OK, 1 error) together with the resulting `proxy_t`. -/
def parseProxy (value : Option (List Char)) (proxy : Proxy) : Nat × Proxy :=
  match value with
  | none => (0, { proxy with host := none })
  | some cp0 =>
    let cp := if matchHttp cp0 then cp0.drop 7 else cp0
    let len := strcspn cp [':', '/']
    if len = 0 then (0, { proxy with host := none })
    else
      let host := cp.take len
      match cp.drop len with
      | ':' :: afterColon =>
        if (afterColon.headD '\x00').isDigit then
          if digitsVal (digitSpan afterColon).1 > LONG_MAX then (1, proxy)
          else
            tailCheck (digitSpan afterColon).2 host
              (castInt (digitsVal (digitSpan afterColon).1)) proxy
        else tailCheck afterColon host 80 proxy
      | '/' :: t => if t = [] then (0, ⟨some host, 80⟩) else (1, proxy)
      | [] => (0, ⟨some host, 80⟩)
      | _ => (1, proxy)

/-- Claim C3: the spec's literal acceptance table holds, and the
`http://` prefix is matched case-insensitively: a bare host gets port 80,
`host:8080` gets port 8080, `http://host:3128/` (in any capitalisation)
strips the prefix and gets port 3128, and trailing text after the slash
is a parse failure that leaves the stored proxy untouched. -/
theorem parseProxy_acceptance_table (p : Proxy) :
    parseProxy (some "proxy.example.com".toList) p =
      (0, ⟨some "proxy.example.com".toList, 80⟩) ∧
    parseProxy (some "proxy.example.com:8080".toList) p =
      (0, ⟨some "proxy.example.com".toList, 8080⟩) ∧
    parseProxy (some "http://proxy.example.com:3128/".toList) p =
      (0, ⟨some "proxy.example.com".toList, 3128⟩) ∧
    parseProxy (some "HtTp://proxy.example.com:3128/".toList) p =
      (0, ⟨some "proxy.example.com".toList, 3128⟩) ∧
    parseProxy (some "proxy.example.com:8080/extra".toList) p = (1, p) :=
  ⟨rfl, rfl, rfl, rfl, rfl⟩

/-- Claim C6, counterexample: on the empty input string `parseProxy`
returns success and clears the stored host, but the previously stored
port 9999 is left in place, not cleared. -/
theorem parseProxy_empty_keeps_port :
    parseProxy (some []) ⟨some ['x'], 9999⟩ = (0, ⟨none, 9999⟩) ∧
    (parseProxy (some []) ⟨some ['x'], 9999⟩).2.port = 9999 := by
  exact ⟨rfl, rfl⟩

/-- Claim C6, amended: on a NULL value, the empty string, a bare `:` or a
bare `/`, `parseProxy` returns success meaning proxy disabled and clears
the previously stored host; the previously stored port is left
unchanged. -/
theorem parseProxy_disable_clears_host (p : Proxy) :
    parseProxy none p = (0, ⟨none, p.port⟩) ∧
    parseProxy (some []) p = (0, ⟨none, p.port⟩) ∧
    parseProxy (some [':']) p = (0, ⟨none, p.port⟩) ∧
    parseProxy (some ['/']) p = (0, ⟨none, p.port⟩) :=
  ⟨rfl, rfl, rfl, rfl⟩

/-- Claim C7: a colon with no digits is accepted when the rest of the
string resolves to end-of-string or a single trailing slash: `host:`
succeeds with the default port 80, `host:80/` succeeds, while `host:80/x`
and `host:x` are parse failures leaving the stored proxy untouched. -/
theorem parseProxy_colon_edge_cases (p : Proxy) :
    parseProxy (some "host:".toList) p = (0, ⟨some "host".toList, 80⟩) ∧
    parseProxy (some "host:80/".toList) p = (0, ⟨some "host".toList, 80⟩) ∧
    parseProxy (some "host:80/x".toList) p = (1, p) ∧
    parseProxy (some "host:x".toList) p = (1, p) :=
  ⟨rfl, rfl, rfl, rfl⟩

/-- Claim C5, counterexample: `host:0` parses successfully and the stored
port is 0, which is not positive — the port after a colon-with-digits is
not always a positive integer. -/
theorem parseProxy_port_zero :
    parseProxy (some "host:0".toList) ⟨none, 80⟩ =
      (0, ⟨some "host".toList, 0⟩) ∧
    ¬ (0 < (parseProxy (some "host:0".toList) ⟨none, 80⟩).2.port) := by
  exact ⟨rfl, by decide⟩

theorem tailCheck_ret_or (rest host : List Char) (port : Int) (p : Proxy) :
    (tailCheck rest host port p).1 = 0 ∨ (tailCheck rest host port p).2 = p := by
  unfold tailCheck
  split
  · split
    · exact Or.inl rfl
    · exact Or.inr rfl
  · exact Or.inl rfl
  · exact Or.inr rfl

/-- Every branch of `parseProxy` returns either success (0) or the stored
proxy exactly as it was. -/
theorem parseProxy_ret_or (v : Option (List Char)) (p : Proxy) :
    (parseProxy v p).1 = 0 ∨ (parseProxy v p).2 = p := by
  unfold parseProxy
  cases v with
  | none => exact Or.inl rfl
  | some cp0 =>
    dsimp only
    repeat' first
      | exact Or.inl rfl
      | exact Or.inr rfl
      | exact tailCheck_ret_or _ _ _ _
      | split

/-- Claim C2: whenever `parseProxy` fails (returns 1), the previously
stored proxy host and port are left completely unchanged — no partial
result is stored. -/
theorem parseProxy_fail_unchanged (v : Option (List Char)) (p : Proxy)
    (h : (parseProxy v p).1 = 1) : (parseProxy v p).2 = p := by
  rcases parseProxy_ret_or v p with h0 | h2
  · rw [h] at h0; cases h0
  · exact h2

/-- Witness for C2: the failing input `host:80/x` leaves a concrete
stored proxy untouched. -/
theorem parseProxy_fail_unchanged_witness :
    (parseProxy (some "host:80/x".toList) ⟨some ['o', 'l', 'd'], 5⟩).2 =
      ⟨some ['o', 'l', 'd'], 5⟩ :=
  parseProxy_fail_unchanged (some "host:80/x".toList)
    ⟨some ['o', 'l', 'd'], 5⟩ rfl

theorem strcspn_append_mem (h : List Char) (c : Char) (r set : List Char)
    (hh : ∀ x ∈ h, x ∉ set) (hc : c ∈ set) :
    strcspn (h ++ c :: r) set = h.length := by
  induction h with
  | nil => simp [strcspn, hc]
  | cons a as ih =>
    have ha : a ∉ set := hh a (List.mem_cons_self a as)
    have has : ∀ x ∈ as, x ∉ set := fun x hx => hh x (List.mem_cons_of_mem a hx)
    show (if a ∈ set then 0 else strcspn (as ++ c :: r) set + 1) =
      as.length + 1
    rw [if_neg ha, ih has]

theorem digitSpan_append (ds rest : List Char)
    (hdig : ∀ c ∈ ds, c.isDigit = true)
    (hmax : ∀ c, rest.head? = some c → c.isDigit = false) :
    digitSpan (ds ++ rest) = (ds, rest) := by
  induction ds with
  | nil =>
    cases rest with
    | nil => rfl
    | cons c r =>
      show (if c.isDigit then _ else ([], c :: r)) = ([], c :: r)
      rw [if_neg (by rw [hmax c rfl]; simp)]
  | cons a as ih =>
    have ha : a.isDigit = true := hdig a (List.mem_cons_self a as)
    have has : ∀ c ∈ as, c.isDigit = true :=
      fun c hc => hdig c (List.mem_cons_of_mem a hc)
    show (if a.isDigit then
        (a :: (digitSpan (as ++ rest)).1, (digitSpan (as ++ rest)).2)
      else _) = (a :: as, rest)
    rw [if_pos (by rw [ha]), ih has]

theorem tailCheck_eq (rest host : List Char) (port : Int) (p : Proxy) :
    tailCheck rest host port p =
      if rest = [] ∨ rest = ['/'] then (0, ⟨some host, port⟩) else (1, p) := by
  unfold tailCheck
  split
  · split
    · rw [if_pos (Or.inr (by simp_all))]
    · rw [if_neg (by simp_all)]
  · rw [if_pos (Or.inl rfl)]
  · rw [if_neg (by simp_all)]

/-- Claim C5, amended: on any input whose (non-empty, delimiter-free,
not `http://`-prefixed) host is followed by `:` and at least one decimal
digit, a successful `parseProxy` stores as port the decimal value of the
maximal digit run truncated to a 32-bit int — a value that is
non-negative for ports below 2^31 but may be 0 (and is negative for
values whose low 32 bits reach 2^31), not always positive — and a
decimal value overflowing `LONG_MAX` makes `parseProxy` fail; after the
digits the input must end or consist of a single `/`, else it fails. -/
theorem parseProxy_port_parse (h ds rest : List Char) (p : Proxy)
    (hne : h ≠ []) (hh : ∀ c ∈ h, c ≠ ':' ∧ c ≠ '/')
    (hd0 : ds ≠ []) (hdig : ∀ c ∈ ds, c.isDigit = true)
    (hmax : ∀ c, rest.head? = some c → c.isDigit = false)
    (hpre : matchHttp (h ++ ':' :: (ds ++ rest)) = false) :
    parseProxy (some (h ++ ':' :: (ds ++ rest))) p =
      if digitsVal ds > LONG_MAX then (1, p)
      else if rest = [] ∨ rest = ['/'] then
        (0, ⟨some h, castInt (digitsVal ds)⟩)
      else (1, p) := by
  have hmem : ∀ x ∈ h, x ∉ ([':', '/'] : List Char) := by
    intro x hx
    have := hh x hx
    simp [this.1, this.2]
  have hlen : strcspn (h ++ ':' :: (ds ++ rest)) [':', '/'] = h.length :=
    strcspn_append_mem h ':' (ds ++ rest) [':', '/'] hmem (by simp)
  obtain ⟨d, ds', rfl⟩ : ∃ d ds', ds = d :: ds' := by
    cases ds with
    | nil => exact absurd rfl hd0
    | cons d ds' => exact ⟨d, ds', rfl⟩
  have hd : d.isDigit = true := hdig d (List.mem_cons_self d ds')
  have hlen0 : ¬ (h.length = 0) := fun h0 => hne (List.length_eq_zero.mp h0)
  have hds : digitSpan (d :: (ds' ++ rest)) = (d :: ds', rest) := by
    rw [← List.cons_append]
    exact digitSpan_append (d :: ds') rest hdig hmax
  simp only [List.cons_append] at hlen hpre
  rw [parseProxy]
  dsimp only
  simp only [hpre, Bool.false_eq_true, if_false, List.cons_append, hlen,
    if_neg hlen0, List.take_left, List.drop_left, List.headD_cons, hd,
    eq_self_iff_true, if_true, hds]
  by_cases hov : digitsVal (d :: ds') > LONG_MAX
  · rw [if_pos hov, if_pos hov]
  · rw [if_neg hov, if_neg hov, tailCheck_eq]

/-- Witness for the amended C5: `host:8080` stores port 8080 and
`host:18446744073709551616` (a 2^64 port) is rejected. -/
theorem parseProxy_port_parse_witness :
    parseProxy (some ("host".toList ++ ':' :: ("8080".toList ++ []))) ⟨none, 5⟩ =
      (0, ⟨some "host".toList, castInt (digitsVal "8080".toList)⟩) ∧
    parseProxy (some ("host".toList ++ ':' ::
        ("18446744073709551616".toList ++ []))) ⟨none, 5⟩ =
      (1, ⟨none, 5⟩) := by
  constructor
  · have := parseProxy_port_parse "host".toList "8080".toList [] ⟨none, 5⟩
      (by decide) (by decide) (by decide) (by decide)
      (by intro c hc; cases hc) (by decide)
    rw [this]
    decide
  · have := parseProxy_port_parse "host".toList "18446744073709551616".toList
      [] ⟨none, 5⟩ (by decide) (by decide) (by decide) (by decide)
      (by intro c hc; cases hc) (by decide)
    rw [this]
    decide

/-! ### Remaining credential-guard claims -/

/-- Claim C8: protect and reveal signal no recoverable error — they are
safe no-ops on invalid or absent state.  `encryptPassword` returns the
state unchanged when the secret is absent or already obfuscated, and
`decryptPassword` returns the state unchanged when the secret is not
obfuscated or when no secret or no pad is present.  (`clearPassword` is a
total function on every state, so dispose cannot fail either.) -/
theorem cg_noop (s : CGState) :
    (s.encrypted = true ∨ s.password = none → encryptPassword s = s) ∧
    (s.encrypted = false ∨ s.password = none ∨ s.passwordPad = none →
      decryptPassword s = s) := by
  constructor
  · intro hc
    have hg : (s.encrypted || s.password.isNone) = true := by
      rcases hc with h | h <;> simp [h]
    rw [encryptPassword, if_pos hg]
  · intro hc
    have hg : (!s.encrypted || s.password.isNone || s.passwordPad.isNone)
        = true := by
      rcases hc with h | h | h <;> simp [h]
    rw [decryptPassword, if_pos hg]

/-- A concrete already-obfuscated state, used to instantiate no-op
theorems. -/
def demoObfuscated : CGState :=
  { password := some [12, 34, 56]
    encrypted := true
    passwordPad := some [1, 2, 3]
    passwordLen := 3
    needSeed := false
    rng := fun k => 5 * k + 1
    rngPos := 9 }

/-- Witness for C8: protect on an already-obfuscated state and reveal on
a plaintext state are both identity. -/
theorem cg_noop_witness :
    encryptPassword demoObfuscated = demoObfuscated ∧
    decryptPassword demoPlain = demoPlain :=
  ⟨(cg_noop demoObfuscated).1 (Or.inl rfl),
   (cg_noop demoPlain).2 (Or.inl rfl)⟩

theorem overwriteLoop_eq_map (buf : List Nat) (f : Nat → Nat) (n : Nat)
    (hl : buf.length = n) : overwriteLoop buf f n = (List.range n).map f := by
  induction buf generalizing f n with
  | nil => subst hl; rfl
  | cons b bs ih =>
    subst hl
    show f 0 :: overwriteLoop bs (fun i => f (i + 1)) bs.length = _
    rw [List.length_cons, List.range_succ_eq_map, List.map_cons, List.map_map]
    exact congrArg (f 0 :: ·) (ih (fun i => f (i + 1)) bs.length rfl)

/-- Claim C9: `clearPassword` first overwrites every byte of the secret
buffer and every byte of the pad with freshly drawn bytes from the random
stream (byte i of the secret gets draw 2i, byte i of the pad gets draw
2i+1 — successive random values, never a fixed zero fill), and after the
buffers are released the component is back in its initial empty state:
no secret buffer, no pad, stored length zero. -/
theorem clearPassword_disposal (s : CGState) (pw pd : List Nat)
    (hpw : s.password = some pw) (hpd : s.passwordPad = some pd)
    (hlw : pw.length = s.passwordLen) (hlp : pd.length = s.passwordLen) :
    (clearOverwrite s).password =
      some ((List.range s.passwordLen).map (fun i => randByte s (2 * i))) ∧
    (clearOverwrite s).passwordPad =
      some ((List.range s.passwordLen).map (fun i => randByte s (2 * i + 1))) ∧
    (clearPassword s).password = none ∧
    (clearPassword s).passwordPad = none ∧
    (clearPassword s).passwordLen = 0 := by
  refine ⟨?_, ?_, rfl, rfl, rfl⟩
  · show s.password.map
        (fun b => overwriteLoop b (fun i => randByte s (2 * i))
          s.passwordLen) = _
    rw [hpw, Option.map_some']
    exact congrArg some (overwriteLoop_eq_map pw _ _ hlw)
  · show s.passwordPad.map
        (fun b => overwriteLoop b (fun i => randByte s (2 * i + 1))
          s.passwordLen) = _
    rw [hpd, Option.map_some']
    exact congrArg some (overwriteLoop_eq_map pd _ _ hlp)

/-- Witness for C9: disposal of the concrete obfuscated state releases
both buffers after overwriting them with stream draws. -/
theorem clearPassword_disposal_witness :
    (clearOverwrite demoObfuscated).password =
      some ((List.range 3).map (fun i => randByte demoObfuscated (2 * i))) ∧
    (clearOverwrite demoObfuscated).passwordPad =
      some ((List.range 3).map
        (fun i => randByte demoObfuscated (2 * i + 1))) ∧
    (clearPassword demoObfuscated).password = none ∧
    (clearPassword demoObfuscated).passwordPad = none ∧
    (clearPassword demoObfuscated).passwordLen = 0 :=
  clearPassword_disposal demoObfuscated [12, 34, 56] [1, 2, 3] rfl rfl rfl rfl

/-- Modelled from the spec: the code that installs a new plaintext password
(the options/credential loader) is not part of `util.c`; per the spec,
regenerating the Secret with a new password first invalidates and discards
the old pad — which in this module is done by `clearPassword` — and then
stores the new plaintext in unobfuscated state. -/
def replacePassword (s : CGState) (pw : List Nat) : CGState :=
  { clearPassword s with password := some pw, encrypted := false }

/-- Claim C4: after the secret's plaintext is replaced by a new password
(of any, possibly different, length) and `encryptPassword` runs again, the
old pad is not reused: the pad that obfuscates the new plaintext is drawn
fresh from the random stream at its post-replacement position, and its
length is `strlen` of the new plaintext plus one. -/
theorem replace_then_encrypt_fresh_pad (s : CGState) (Q : List Nat)
    (hQ : (0 : Nat) ∉ Q) :
    (encryptPassword (replacePassword s (Q ++ [0]))).passwordPad =
      some ((List.range (Q.length + 1)).map
        (randByte (replacePassword s (Q ++ [0])))) ∧
    (encryptPassword (replacePassword s (Q ++ [0]))).passwordLen =
      Q.length + 1 := by
  have hQ0 : strlen (Q ++ [0]) = Q.length := strlen_append_zero Q hQ
  rw [encryptPassword_fresh (replacePassword s (Q ++ [0])) (Q ++ [0])
    rfl rfl rfl]
  rw [hQ0]
  exact ⟨rfl, rfl⟩

/-- Witness for C4: replacing the two-byte demo password by the one-byte
password `[65]` and protecting again yields a fresh two-byte pad. -/
theorem replace_then_encrypt_fresh_pad_witness :
    (encryptPassword (replacePassword demoPlain ([65] ++ [0]))).passwordPad =
      some ((List.range (1 + 1)).map
        (randByte (replacePassword demoPlain ([65] ++ [0])))) ∧
    (encryptPassword (replacePassword demoPlain ([65] ++ [0]))).passwordLen =
      1 + 1 :=
  replace_then_encrypt_fresh_pad demoPlain [65] (by decide)

/-! ### Claim C10: module invariant -/

/-- A well-formed C string buffer: a zero-free prefix followed by exactly
one terminating zero byte. -/
def isCString (pw : List Nat) : Prop :=
  ∃ P, pw = P ++ [0] ∧ (0 : Nat) ∉ P

/-- The module-level invariant of the password code: the pad is present
exactly when the stored length is positive; a present pad has exactly the
stored length; a positive stored length means the secret buffer is present
with exactly that length (so every XOR loop, which runs for `passwordLen`
iterations, stays within both buffers); and before the first obfuscation
(length 0) a present secret buffer is a well-formed C string, which makes
the length recorded at pad generation equal `strlen` of the originally
supplied plaintext plus one. -/
def cgInv (s : CGState) : Prop :=
  (s.passwordPad = none ↔ s.passwordLen = 0) ∧
  (∀ pd, s.passwordPad = some pd → pd.length = s.passwordLen) ∧
  (0 < s.passwordLen →
    ∃ pw, s.password = some pw ∧ pw.length = s.passwordLen) ∧
  (∀ pw, s.password = some pw → s.passwordLen = 0 → isCString pw)

/-- Claim C10: the invariant `cgInv` is preserved by each of the three
operations `encryptPassword`, `decryptPassword` and `clearPassword`. -/
theorem cg_invariant (s : CGState) (hs : cgInv s) :
    cgInv (encryptPassword s) ∧ cgInv (decryptPassword s) ∧
    cgInv (clearPassword s) := by
  obtain ⟨h1, h2, h3, h4⟩ := hs
  refine ⟨?_, ?_, ?_⟩
  · by_cases hg : (s.encrypted || s.password.isNone) = true
    · rw [encryptPassword, if_pos hg]
      exact ⟨h1, h2, h3, h4⟩
    · obtain ⟨pw, hpw⟩ : ∃ pw, s.password = some pw := by
        cases hq : s.password with
        | none => exact absurd (by rw [hq]; simp) hg
        | some pw => exact ⟨pw, rfl⟩
      have henc : s.encrypted = false := by
        cases hq : s.encrypted
        · rfl
        · exact absurd (by rw [hq]; simp) hg
      cases hpd : s.passwordPad with
      | some pad =>
        have hlpos : 0 < s.passwordLen := by
          rcases Nat.eq_zero_or_pos s.passwordLen with h0 | h0
          · exact absurd (h1.mpr h0) (by rw [hpd]; exact fun h => by cases h)
          · exact h0
        have hr : encryptPassword s =
            { s with password := some (xorLoop pw pad s.passwordLen)
                     needSeed := false
                     encrypted := true } := by
          rw [encryptPassword]
          simp only [henc, hpw, hpd, seedPasswordRandom, Option.isNone_some,
            Bool.false_or, if_false]
          rfl
        rw [hr]
        refine ⟨h1, h2, ?_, ?_⟩
        · intro hpos
          obtain ⟨pw', hpw', hlen'⟩ := h3 hpos
          have : pw' = pw := by rw [hpw] at hpw'; exact (Option.some.inj hpw').symm
          refine ⟨xorLoop pw pad s.passwordLen, rfl, ?_⟩
          rw [xorLoop_length, ← this, hlen']
        · intro pw' hpw' hzero
          exact absurd hzero (Nat.pos_iff_ne_zero.mp hlpos)
      | none =>
        have hzero : s.passwordLen = 0 := h1.mp hpd
        obtain ⟨P, hPeq, hPmem⟩ := h4 pw hpw hzero
        have hsl : strlen pw = P.length := hPeq ▸ strlen_append_zero P hPmem
        have hpwlen : pw.length = strlen pw + 1 := by
          rw [hsl, hPeq]; simp
        rw [encryptPassword_fresh s pw hpw henc hpd]
        refine ⟨?_, ?_, ?_, ?_⟩
        · constructor
          · intro h; cases h
          · intro h; cases h
        · intro pd hpd'
          have : pd = (List.range (strlen pw + 1)).map (randByte s) :=
            (Option.some.inj hpd').symm
          rw [this, List.length_map, List.length_range]
        · intro hpos
          exact ⟨xorLoop pw ((List.range (strlen pw + 1)).map (randByte s))
            (strlen pw + 1), rfl, by rw [xorLoop_length, hpwlen]⟩
        · intro pw' hpw' hzero'
          cases hzero'
  · by_cases hg : (!s.encrypted || s.password.isNone ||
        s.passwordPad.isNone) = true
    · rw [decryptPassword, if_pos hg]
      exact ⟨h1, h2, h3, h4⟩
    · obtain ⟨pw, hpw⟩ : ∃ pw, s.password = some pw := by
        cases hq : s.password with
        | none => exact absurd (by rw [hq]; simp) hg
        | some pw => exact ⟨pw, rfl⟩
      obtain ⟨pad, hpd⟩ : ∃ pad, s.passwordPad = some pad := by
        cases hq : s.passwordPad with
        | none => exact absurd (by rw [hq]; simp) hg
        | some pad => exact ⟨pad, rfl⟩
      have hlpos : 0 < s.passwordLen := by
        rcases Nat.eq_zero_or_pos s.passwordLen with h0 | h0
        · exact absurd (h1.mpr h0) (by rw [hpd]; exact fun h => by cases h)
        · exact h0
      have hr : decryptPassword s =
          { s with password := some (xorLoop pw pad s.passwordLen)
                   encrypted := false } ∨ decryptPassword s = s := by
        rw [decryptPassword]
        split
        · exact Or.inr rfl
        · rw [hpw, hpd]
          exact Or.inl rfl
      rcases hr with hr | hr
      · rw [hr]
        refine ⟨h1, h2, ?_, ?_⟩
        · intro hpos
          obtain ⟨pw', hpw', hlen'⟩ := h3 hpos
          have : pw' = pw := by rw [hpw] at hpw'; exact (Option.some.inj hpw').symm
          refine ⟨xorLoop pw pad s.passwordLen, rfl, ?_⟩
          rw [xorLoop_length, ← this, hlen']
        · intro pw' hpw' hzero
          exact absurd hzero (Nat.pos_iff_ne_zero.mp hlpos)
      · rw [hr]
        exact ⟨h1, h2, h3, h4⟩
  · refine ⟨?_, ?_, ?_, ?_⟩
    · constructor
      · intro _; rfl
      · intro _; rfl
    · intro pd hpd'
      cases hpd'
    · intro hpos
      cases hpos
    · intro pw' hpw' _
      cases hpw'

/-- Witness for C10: the invariant holds for the initial demo state (fresh
plaintext, no pad) and is carried through its first obfuscation. -/
theorem cg_invariant_witness : cgInv (encryptPassword demoPlain) := by
  have hinv : cgInv demoPlain := by
    refine ⟨⟨fun _ => rfl, fun _ => rfl⟩, ?_, ?_, ?_⟩
    · intro pd h; cases h
    · intro h; cases h
    · intro pw h hz
      exact ⟨[104, 105], (Option.some.inj h).symm, by decide⟩
  exact (cg_invariant demoPlain hinv).1

end Esniper
